import Mathlib

/-!
Verification of the ingress-operator reconciliation handlers.

This development shallowly embeds the ConfigMap handler and the Service
handler of the operator. Go maps are modelled as association lists with
unique keys and Go slices as lists; machine integers (int32 conversions)
are modelled on Int with an explicit wrap. Each definition is translated
from a named source file of the repository; the few places where code is
missing from the repository snapshot are modelled from the spec and
marked as such.
-/

set_option autoImplicit false

/-- A Go `map[string]string` value, modelled as an association list.
The operations below keep keys unique, as a Go map does. -/
abbrev GoStrMap := List (String × String)

/-- From `github.com/giantswarm/ingresstpr/protocolport` (src/unnamed/part_005):
one entry of the ProtocolPorts sequence. Go int is modelled as Int. -/
structure ProtocolPort where
  IngressPort : Int
  LBPort : Int
  Protocol : String
deriving DecidableEq, Repr

/-- From `github.com/giantswarm/ingresstpr/guestcluster` (src/unnamed/part_002). -/
structure GuestCluster where
  ID : String
  Namespace : String
  Service : String
deriving DecidableEq, Repr

/-- From `ingresstpr/hostcluster/ingresscontroller` (src/unnamed/part_003). -/
structure IngressController where
  ConfigMap : String
  Namespace : String
  Service : String
deriving DecidableEq, Repr

/-- From `ingresstpr/hostcluster`. -/
structure HostCluster where
  IngressController : IngressController
deriving DecidableEq, Repr

/-- From `ingresstpr` Spec (src/unnamed/part_004). -/
structure IngressSpec where
  GuestCluster : GuestCluster
  HostCluster : HostCluster
  ProtocolPorts : List ProtocolPort
deriving DecidableEq, Repr

/-- The custom object (`ingresstpr.CustomObject` and its v1alpha1
`IngressConfig` successor). Object metadata is reduced to the deletion
timestamp, the only metadata the verified code reads. -/
structure CustomObject where
  Spec : IngressSpec
  DeletionTimestamp : Option String
deriving DecidableEq, Repr

/-- `apiv1.ServicePort` restricted to the five fields the operator sets
and compares. `Port`, `TargetPort` and `NodePort` carry the value of the
Go int32 (TargetPort through `intstr.FromInt`, which also stores an
int32). -/
structure ServicePort where
  Name : String
  Protocol : String
  Port : Int
  TargetPort : Int
  NodePort : Int
deriving DecidableEq, Repr

/-- `apiv1.ServiceSpec` restricted to the port list. -/
structure ServiceSpec where
  Ports : List ServicePort
deriving DecidableEq, Repr

/-- `apiv1.Service`: the Metadata field stands for all the fields the
handlers never touch (name, labels, resource version, ...). -/
structure KubeService where
  Metadata : String
  Spec : ServiceSpec
deriving DecidableEq, Repr

/-- `apiv1.ConfigMap`: Metadata as above; Data is the string map.
`GetCurrentState` replaces a nil Data by an empty map before any handler
sees it, so Data here is total. -/
structure ConfigMap where
  Metadata : String
  Data : GoStrMap
deriving DecidableEq, Repr

/-- Go `m[k]` on a `map[string]string`. -/
def mapLookup : GoStrMap → String → Option String
  | [], _ => none
  | (k', v) :: rest, k => if k' = k then some v else mapLookup rest k

/-- Go `m[k] = v` on a `map[string]string`: overwrite if the key is
present, append otherwise. -/
def mapInsert : GoStrMap → String → String → GoStrMap
  | [], k, v => [(k, v)]
  | (k', v') :: rest, k, v =>
    if k' = k then (k, v) :: rest else (k', v') :: mapInsert rest k v

/-- The keys of a map are pairwise distinct; every value produced by a Go
map has this property. -/
def UniqueKeys (m : GoStrMap) : Prop := (m.map Prod.fst).Nodup

instance (m : GoStrMap) : Decidable (UniqueKeys m) := by
  unfold UniqueKeys; infer_instance

/-- `inConfigMapData` (src/service/resource/configmap/resource.go line 77,
identical in the configmapv2 and ingressconfig/v2 revisions): true iff
some entry has this key and this value. -/
def inConfigMapData (data : GoStrMap) (k v : String) : Bool :=
  data.any (fun kv => kv.1 = k && kv.2 = v)

/-- Go `%d` / `strconv.Itoa` rendering of an integer. -/
def intToDecimal (n : Int) : String := toString n

/-- Go `int32(n)` conversion (two's-complement wrap). -/
def int32ofInt (n : Int) : Int := (n + 2 ^ 31) % 2 ^ 32 - 2 ^ 31

/-- Spec helper `DataKey(lbPort)`: decimal string of the LB port
(`strconv.Itoa(p.LBPort)` in the desired-state code). -/
def dataKey (lbPort : Int) : String := intToDecimal lbPort

/-- Spec helper `DataValue`: `DataValueFormat = "%s/%s:%d"` applied to the
guest namespace, the guest service and the ingress port
(src/service/resource/configmapv2/desired.go). -/
def dataValue (ns svc : String) (ingressPort : Int) : String :=
  ns ++ "/" ++ svc ++ ":" ++ intToDecimal ingressPort

/-- Spec helper `PortName`: `PortNameFormat = "%s-%d-%s"` applied to the
protocol, the ingress port and the cluster ID
(src/service/resource/service/resource.go lines 17-28). -/
def portName (protocol : String) (ingressPort : Int) (id : String) : String :=
  protocol ++ "-" ++ intToDecimal ingressPort ++ "-" ++ id

/-- ConfigMap handler `GetDesiredState`
(src/service/resource/configmapv2/desired.go lines 11-37, identical in
src/service/controller/v2/resource/configmap/desired.go): builds the map
from `dataKey(LBPort)` to `dataValue(Namespace, Service, IngressPort)`,
one Go map assignment per ProtocolPorts entry. -/
def getDesiredStateConfigMapData (o : CustomObject) : GoStrMap :=
  o.Spec.ProtocolPorts.foldl
    (fun dState p =>
      mapInsert dState (dataKey p.LBPort)
        (dataValue o.Spec.GuestCluster.Namespace o.Spec.GuestCluster.Service p.IngressPort))
    []

/-- Service handler `GetDesiredState`
(src/service/resource/service/resource.go lines 93-126): one port per
ProtocolPorts entry, in order; `Port`, `TargetPort` and `NodePort` are
the int32 conversions of LBPort, the protocol is the literal `TCP`. -/
def getDesiredStateServicePorts (o : CustomObject) : List ServicePort :=
  o.Spec.ProtocolPorts.map (fun p =>
    { Name := portName p.Protocol p.IngressPort o.Spec.GuestCluster.ID
      Protocol := "TCP"
      Port := int32ofInt p.LBPort
      TargetPort := int32ofInt p.LBPort
      NodePort := int32ofInt p.LBPort })

lemma int32ofInt_eq_self {n : Int} (h0 : 0 ≤ n) (h1 : n < 2 ^ 31) :
    int32ofInt n = n := by
  unfold int32ofInt
  have hlo : (0 : Int) ≤ n + 2 ^ 31 := by omega
  have hhi : n + 2 ^ 31 < 2 ^ 32 := by omega
  rw [Int.emod_eq_of_lt hlo hhi]
  omega

/-- C2. Service desired state: for every object, GetDesiredState returns
one port per ProtocolPorts entry, in the same order, named
`Protocol-IngressPort-ID` (format `%s-%d-%s`, ingress port in decimal),
protocol TCP, and Port = TargetPort = NodePort = LBPort. The LB ports
are assumed to be in int32 range, as every TCP port is; the embedded
code converts through int32. -/
theorem service_desired_state_spec (o : CustomObject)
    (h : ∀ p ∈ o.Spec.ProtocolPorts, 0 ≤ p.LBPort ∧ p.LBPort < 2 ^ 31) :
    getDesiredStateServicePorts o = o.Spec.ProtocolPorts.map (fun p =>
      { Name := p.Protocol ++ "-" ++ intToDecimal p.IngressPort ++ "-" ++ o.Spec.GuestCluster.ID
        Protocol := "TCP"
        Port := p.LBPort
        TargetPort := p.LBPort
        NodePort := p.LBPort }) := by
  unfold getDesiredStateServicePorts
  apply List.map_congr_left
  intro p hp
  obtain ⟨h0, h1⟩ := h p hp
  rw [int32ofInt_eq_self h0 h1]
  rfl

/-- Seed object of scenario 1 of the spec: cluster al9qy with the single
protocol port http/30010/31000. -/
def objAl9qy : CustomObject :=
  { Spec :=
      { GuestCluster := { ID := "al9qy", Namespace := "al9qy", Service := "worker" }
        HostCluster :=
          { IngressController :=
              { ConfigMap := "ingress-controller"
                Namespace := "kube-system"
                Service := "ingress-controller" } }
        ProtocolPorts := [{ IngressPort := 30010, LBPort := 31000, Protocol := "http" }] }
    DeletionTimestamp := none }

/-- Witness for C2 at the seed object: the hypothesis holds and the
desired port list is the canonical singleton. -/
theorem service_desired_state_spec_witness :
    (∀ p ∈ objAl9qy.Spec.ProtocolPorts, 0 ≤ p.LBPort ∧ p.LBPort < 2 ^ 31) ∧
    getDesiredStateServicePorts objAl9qy = objAl9qy.Spec.ProtocolPorts.map (fun p =>
      { Name := p.Protocol ++ "-" ++ intToDecimal p.IngressPort ++ "-" ++ objAl9qy.Spec.GuestCluster.ID
        Protocol := "TCP"
        Port := p.LBPort
        TargetPort := p.LBPort
        NodePort := p.LBPort }) :=
  ⟨by decide, service_desired_state_spec objAl9qy (by decide)⟩

/-! ### Association-list lemmas for the Go map model -/

lemma mapLookup_nil (k : String) : mapLookup [] k = none := rfl

lemma mapLookup_cons (k₀ v₀ : String) (rest : GoStrMap) (k : String) :
    mapLookup ((k₀, v₀) :: rest) k = if k₀ = k then some v₀ else mapLookup rest k := rfl

lemma mapInsert_nil (k v : String) : mapInsert [] k v = [(k, v)] := rfl

lemma mapInsert_cons (k₀ v₀ : String) (rest : GoStrMap) (k v : String) :
    mapInsert ((k₀, v₀) :: rest) k v =
      if k₀ = k then (k, v) :: rest else (k₀, v₀) :: mapInsert rest k v := rfl

lemma mapLookup_insert_self (m : GoStrMap) (k v : String) :
    mapLookup (mapInsert m k v) k = some v := by
  induction m with
  | nil => simp [mapInsert_nil, mapLookup_cons]
  | cons kv rest ih =>
    obtain ⟨k₀, v₀⟩ := kv
    rw [mapInsert_cons]
    by_cases h : k₀ = k
    · rw [if_pos h, mapLookup_cons, if_pos rfl]
    · rw [if_neg h, mapLookup_cons, if_neg h, ih]

lemma mapLookup_insert_ne (m : GoStrMap) (k v k' : String) (h : k' ≠ k) :
    mapLookup (mapInsert m k v) k' = mapLookup m k' := by
  have h' : k ≠ k' := Ne.symm h
  induction m with
  | nil => rw [mapInsert_nil, mapLookup_cons, if_neg h', mapLookup_nil]
  | cons kv rest ih =>
    obtain ⟨k₀, v₀⟩ := kv
    rw [mapInsert_cons]
    by_cases h₀ : k₀ = k
    · subst h₀
      rw [if_pos rfl, mapLookup_cons, mapLookup_cons, if_neg h', if_neg h']
    · rw [if_neg h₀, mapLookup_cons, mapLookup_cons, ih]

lemma keys_mapInsert (m : GoStrMap) (k v : String) :
    ((mapInsert m k v).map Prod.fst) =
      if k ∈ m.map Prod.fst then m.map Prod.fst else m.map Prod.fst ++ [k] := by
  induction m with
  | nil => simp [mapInsert_nil]
  | cons kv rest ih =>
    obtain ⟨k₀, v₀⟩ := kv
    rw [mapInsert_cons]
    by_cases h₀ : k₀ = k
    · subst h₀; simp
    · have hne : ¬ k = k₀ := fun hh => h₀ hh.symm
      rw [if_neg h₀]
      simp only [List.map_cons, List.mem_cons, hne, false_or, ih]
      by_cases hmem : k ∈ rest.map Prod.fst
      · rw [if_pos hmem, if_pos hmem]
      · rw [if_neg hmem, if_neg hmem, List.cons_append]

lemma uniqueKeys_mapInsert {m : GoStrMap} (hu : UniqueKeys m) (k v : String) :
    UniqueKeys (mapInsert m k v) := by
  unfold UniqueKeys at *
  rw [keys_mapInsert]
  by_cases hmem : k ∈ m.map Prod.fst
  · rwa [if_pos hmem]
  · rw [if_neg hmem]
    exact List.Nodup.append hu (List.nodup_singleton k)
      (by simpa [List.disjoint_singleton] using hmem)

lemma uniqueKeys_cons {k₀ v₀ : String} {rest : GoStrMap}
    (hu : UniqueKeys ((k₀, v₀) :: rest)) :
    UniqueKeys rest ∧ k₀ ∉ rest.map Prod.fst := by
  unfold UniqueKeys at *
  simp only [List.map_cons, List.nodup_cons] at hu
  exact ⟨hu.2, hu.1⟩

lemma mapLookup_eq_none_iff (m : GoStrMap) (k : String) :
    mapLookup m k = none ↔ k ∉ m.map Prod.fst := by
  induction m with
  | nil => simp [mapLookup_nil]
  | cons kv rest ih =>
    obtain ⟨k₀, v₀⟩ := kv
    rw [mapLookup_cons]
    by_cases h₀ : k₀ = k
    · subst h₀; simp
    · have hne : ¬ k = k₀ := fun hh => h₀ hh.symm
      rw [if_neg h₀]
      simp [hne, ih]

lemma mem_of_mapLookup_eq_some {m : GoStrMap} {k v : String}
    (h : mapLookup m k = some v) : (k, v) ∈ m := by
  induction m with
  | nil => rw [mapLookup_nil] at h; cases h
  | cons kv rest ih =>
    obtain ⟨k₀, v₀⟩ := kv
    rw [mapLookup_cons] at h
    by_cases h₀ : k₀ = k
    · rw [if_pos h₀] at h
      injection h with hv
      subst h₀; subst hv
      exact List.mem_cons_self _ _
    · rw [if_neg h₀] at h
      exact List.mem_cons_of_mem _ (ih h)

lemma mapLookup_eq_some_of_mem {m : GoStrMap} {k v : String}
    (hu : UniqueKeys m) (h : (k, v) ∈ m) : mapLookup m k = some v := by
  induction m with
  | nil => cases h
  | cons kv rest ih =>
    obtain ⟨k₀, v₀⟩ := kv
    obtain ⟨hu2, hk0⟩ := uniqueKeys_cons hu
    rw [mapLookup_cons]
    rcases List.mem_cons.mp h with h1 | h1
    · injection h1 with hk hv
      subst hk; subst hv
      rw [if_pos rfl]
    · have hne : k₀ ≠ k := by
        intro hh
        subst hh
        exact hk0 (List.mem_map.mpr ⟨(k₀, v), h1, rfl⟩)
      rw [if_neg hne]
      exact ih hu2 h1

lemma inConfigMapData_iff_mem (data : GoStrMap) (k v : String) :
    inConfigMapData data k v = true ↔ (k, v) ∈ data := by
  unfold inConfigMapData
  rw [List.any_eq_true]
  constructor
  · rintro ⟨⟨k', v'⟩, hmem, hp⟩
    simp only [Bool.and_eq_true, decide_eq_true_eq] at hp
    obtain ⟨hk, hv⟩ := hp
    cases hk; cases hv; exact hmem
  · intro hmem
    exact ⟨(k, v), hmem, by simp⟩

/-! ### ConfigMap desired-state lemmas -/

lemma uniqueKeys_getDesiredStateConfigMapData (o : CustomObject) :
    UniqueKeys (getDesiredStateConfigMapData o) := by
  unfold getDesiredStateConfigMapData
  generalize hacc : ([] : GoStrMap) = acc
  have hu : UniqueKeys acc := by rw [← hacc]; exact List.nodup_nil
  clear hacc
  induction o.Spec.ProtocolPorts generalizing acc with
  | nil => exact hu
  | cons p rest ih => exact ih _ (uniqueKeys_mapInsert hu _ _)

lemma foldl_mapInsert_lookup_frame {α : Type} (f : α → String) (g : α → String) :
    ∀ (ps : List α) (acc : GoStrMap) (k : String), (∀ q ∈ ps, f q ≠ k) →
      mapLookup (ps.foldl (fun m q => mapInsert m (f q) (g q)) acc) k = mapLookup acc k := by
  intro ps
  induction ps with
  | nil => intro acc k _; rfl
  | cons p rest ih =>
    intro acc k hk
    have h1 : f p ≠ k := hk p (List.mem_cons_self _ _)
    have h2 : ∀ q ∈ rest, f q ≠ k := fun q hq => hk q (List.mem_cons_of_mem _ hq)
    simp only [List.foldl_cons]
    rw [ih _ k h2, mapLookup_insert_ne _ _ _ _ (Ne.symm h1)]

lemma foldl_mapInsert_lookup_mem {α : Type} (f : α → String) (g : α → String) :
    ∀ (ps : List α) (acc : GoStrMap) (p : α), p ∈ ps → (ps.map f).Nodup →
      mapLookup (ps.foldl (fun m q => mapInsert m (f q) (g q)) acc) (f p) = some (g p) := by
  intro ps
  induction ps with
  | nil => intro _ p hp _; cases hp
  | cons q rest ih =>
    intro acc p hp hnd
    simp only [List.map_cons, List.nodup_cons] at hnd
    rcases List.mem_cons.mp hp with h1 | h1
    · subst h1
      simp only [List.foldl_cons]
      rw [foldl_mapInsert_lookup_frame f g rest _ (f p)
          (fun q' hq' hh => hnd.1 (List.mem_map.mpr ⟨q', hq', hh⟩))]
      exact mapLookup_insert_self _ _ _
    · simp only [List.foldl_cons]
      exact ih _ p h1 hnd.2

lemma getDesiredStateConfigMapData_lookup (o : CustomObject) (p : ProtocolPort)
    (hp : p ∈ o.Spec.ProtocolPorts)
    (hnd : (o.Spec.ProtocolPorts.map (fun q => dataKey q.LBPort)).Nodup) :
    mapLookup (getDesiredStateConfigMapData o) (dataKey p.LBPort) =
      some (dataValue o.Spec.GuestCluster.Namespace o.Spec.GuestCluster.Service p.IngressPort) :=
  foldl_mapInsert_lookup_mem _ _ o.Spec.ProtocolPorts [] p hp hnd

/-! ### ConfigMap create diff (C1) -/

/-- `newCreateChange` of the ConfigMap handler
(src/service/resource/configmap/create.go lines 37-77), data part: start
from the fetched current data and assign every desired pair that is not
already present with this exact key and value. The Go loop iterates the
desired map in unspecified order; the embedding iterates its entry list,
and the theorems below state only order-independent lookup facts. -/
def newCreateChangeConfigMapData (current desired : GoStrMap) : GoStrMap :=
  desired.foldl
    (fun createState kv =>
      if inConfigMapData createState kv.1 kv.2 then createState
      else mapInsert createState kv.1 kv.2)
    current

/-- The create change returned to the framework: the current ConfigMap
itself with the data driven towards desired; the Go function always
returns this non-nil pointer. -/
def newCreateChangeConfigMap (current : ConfigMap) (desired : GoStrMap) : Option ConfigMap :=
  some { current with Data := newCreateChangeConfigMapData current.Data desired }

lemma newCreateChangeConfigMapData_cons (current : GoStrMap) (kv : String × String)
    (rest : GoStrMap) :
    newCreateChangeConfigMapData current (kv :: rest) =
      newCreateChangeConfigMapData
        (if inConfigMapData current kv.1 kv.2 then current else mapInsert current kv.1 kv.2)
        rest := rfl

lemma newCreateChangeConfigMapData_frame :
    ∀ (desired current : GoStrMap) (k : String), (∀ kv ∈ desired, kv.1 ≠ k) →
      mapLookup (newCreateChangeConfigMapData current desired) k = mapLookup current k := by
  intro desired
  induction desired with
  | nil => intro _ _ _; rfl
  | cons kv rest ih =>
    intro current k hk
    have h1 : kv.1 ≠ k := hk kv (List.mem_cons_self _ _)
    have h2 : ∀ kv' ∈ rest, kv'.1 ≠ k := fun kv' h => hk kv' (List.mem_cons_of_mem _ h)
    rw [newCreateChangeConfigMapData_cons]
    by_cases hin : inConfigMapData current kv.1 kv.2
    · rw [if_pos hin]
      exact ih current k h2
    · rw [if_neg hin, ih _ k h2, mapLookup_insert_ne _ _ _ _ (Ne.symm h1)]

lemma uniqueKeys_newCreateChangeConfigMapData :
    ∀ (desired current : GoStrMap), UniqueKeys current →
      UniqueKeys (newCreateChangeConfigMapData current desired) := by
  intro desired
  induction desired with
  | nil => intro current hc; exact hc
  | cons kv rest ih =>
    intro current hc
    rw [newCreateChangeConfigMapData_cons]
    by_cases hin : inConfigMapData current kv.1 kv.2
    · rw [if_pos hin]; exact ih current hc
    · rw [if_neg hin]
      exact ih _ (uniqueKeys_mapInsert hc _ _)

lemma newCreateChangeConfigMapData_hit :
    ∀ (desired current : GoStrMap) (k v : String), UniqueKeys desired → UniqueKeys current →
      (k, v) ∈ desired →
      mapLookup (newCreateChangeConfigMapData current desired) k = some v := by
  intro desired
  induction desired with
  | nil => intro _ _ _ _ _ hmem; cases hmem
  | cons kv rest ih =>
    intro current k v hd hc hmem
    obtain ⟨kd, vd⟩ := kv
    obtain ⟨hd2, hd1⟩ := uniqueKeys_cons hd
    rw [newCreateChangeConfigMapData_cons]
    rcases List.mem_cons.mp hmem with h1 | h1
    · injection h1 with hk hv
      subst hk; subst hv
      have hfr : ∀ kv' ∈ rest, kv'.1 ≠ k := by
        intro kv' hkv' hh
        exact hd1 (List.mem_map.mpr ⟨kv', hkv', hh⟩)
      by_cases hin : inConfigMapData current k v
      · rw [if_pos hin, newCreateChangeConfigMapData_frame rest current k hfr]
        exact mapLookup_eq_some_of_mem hc ((inConfigMapData_iff_mem _ _ _).mp hin)
      · rw [if_neg hin, newCreateChangeConfigMapData_frame rest (mapInsert current k v) k hfr]
        exact mapLookup_insert_self _ _ _
    · by_cases hin : inConfigMapData current kd vd
      · rw [if_pos hin]
        exact ih current k v hd2 hc h1
      · rw [if_neg hin]
        exact ih _ k v hd2 (uniqueKeys_mapInsert hc _ _) h1

/-- C1. ConfigMap create diff: the create change maps every key of the
desired mapping to its desired value (in particular, for every
ProtocolPorts entry p, the key of p to the canonical data value of p),
and maps every key outside the desired mapping to its current value;
this is exactly current overwritten with the desired pairs that are
absent or differ. The unique-keys hypotheses hold of every Go map; the
key-distinctness hypothesis is the declared input invariant that LB
ports are unique within one object. -/
theorem configmap_create_diff_lookup (o : CustomObject) (current : ConfigMap)
    (hcur : UniqueKeys current.Data)
    (hnd : (o.Spec.ProtocolPorts.map (fun q => dataKey q.LBPort)).Nodup) :
    (∀ p ∈ o.Spec.ProtocolPorts,
      mapLookup (newCreateChangeConfigMapData current.Data (getDesiredStateConfigMapData o))
          (dataKey p.LBPort) =
        some (dataValue o.Spec.GuestCluster.Namespace o.Spec.GuestCluster.Service p.IngressPort)) ∧
    (∀ k v, mapLookup (getDesiredStateConfigMapData o) k = some v →
      mapLookup (newCreateChangeConfigMapData current.Data (getDesiredStateConfigMapData o)) k =
        some v) ∧
    (∀ k, mapLookup (getDesiredStateConfigMapData o) k = none →
      mapLookup (newCreateChangeConfigMapData current.Data (getDesiredStateConfigMapData o)) k =
        mapLookup current.Data k) := by
  have hud := uniqueKeys_getDesiredStateConfigMapData o
  refine ⟨?_, ?_, ?_⟩
  · intro p hp
    exact newCreateChangeConfigMapData_hit _ _ _ _ hud hcur
      (mem_of_mapLookup_eq_some (getDesiredStateConfigMapData_lookup o p hp hnd))
  · intro k v hkv
    exact newCreateChangeConfigMapData_hit _ _ _ _ hud hcur (mem_of_mapLookup_eq_some hkv)
  · intro k hk
    apply newCreateChangeConfigMapData_frame
    intro kv hkv hh
    rw [mapLookup_eq_none_iff] at hk
    exact hk (List.mem_map.mpr ⟨kv, hkv, hh⟩)

/-- Current ConfigMap of test case 1 of
src/service/resource/configmap/create_test.go. -/
def cmCurrentAl9qy : ConfigMap :=
  { Metadata := "ingress-controller", Data := [("31000", "al9qy/worker:30010")] }

/-- Witness for C1 at the seed object and a concrete fetched ConfigMap. -/
theorem configmap_create_diff_lookup_witness :
    (UniqueKeys cmCurrentAl9qy.Data ∧
      ((objAl9qy.Spec.ProtocolPorts.map (fun q => dataKey q.LBPort)).Nodup)) ∧
    ((∀ p ∈ objAl9qy.Spec.ProtocolPorts,
      mapLookup
          (newCreateChangeConfigMapData cmCurrentAl9qy.Data
            (getDesiredStateConfigMapData objAl9qy))
          (dataKey p.LBPort) =
        some (dataValue objAl9qy.Spec.GuestCluster.Namespace objAl9qy.Spec.GuestCluster.Service
          p.IngressPort)) ∧
    (∀ k v, mapLookup (getDesiredStateConfigMapData objAl9qy) k = some v →
      mapLookup
          (newCreateChangeConfigMapData cmCurrentAl9qy.Data
            (getDesiredStateConfigMapData objAl9qy)) k = some v) ∧
    (∀ k, mapLookup (getDesiredStateConfigMapData objAl9qy) k = none →
      mapLookup
          (newCreateChangeConfigMapData cmCurrentAl9qy.Data
            (getDesiredStateConfigMapData objAl9qy)) k =
        mapLookup cmCurrentAl9qy.Data k)) :=
  ⟨⟨by decide, by decide⟩,
    configmap_create_diff_lookup objAl9qy cmCurrentAl9qy (by decide) (by decide)⟩

/-! ### Service update diff: definitions (C4, C6) -/

/-- `getServicePortByPort`
(src/service/ingressconfig/v2/resource/service/resource.go lines 86-94):
the first port of the list with this numeric port; the Go error
servicePortNotFoundError is modelled as none. -/
def getServicePortByPort : List ServicePort → Int → Option ServicePort
  | [], _ => none
  | p :: rest, item => if p.Port = item then some p else getServicePortByPort rest item

/-- The inner loop of `newUpdateChange`
(src/service/resource/service/update.go lines 83-90): overwrite the
first port whose numeric port equals the desired one, then break. -/
def overwriteFirstByPort : List ServicePort → ServicePort → List ServicePort
  | [], _ => []
  | p :: rest, d => if p.Port = d.Port then d :: rest else p :: overwriteFirstByPort rest d

/-- The loop of `newUpdateChange`
(src/service/resource/service/update.go lines 67-95): for each desired
port in order, append it when its numeric port is absent from the
current ports, overwrite the first port carrying that numeric port when
its name differs, and count every mutation. Returns the final port list
and the count. -/
def goUpdatePorts : List ServicePort → List ServicePort → List ServicePort × Nat
  | s, [] => (s, 0)
  | s, d :: ds =>
    match getServicePortByPort s d.Port with
    | none => ((goUpdatePorts (s ++ [d]) ds).1, (goUpdatePorts (s ++ [d]) ds).2 + 1)
    | some cp =>
      if cp.Name ≠ d.Name then
        ((goUpdatePorts (overwriteFirstByPort s d) ds).1,
          (goUpdatePorts (overwriteFirstByPort s d) ds).2 + 1)
      else
        goUpdatePorts s ds

/-- `newUpdateChange` of the Service handler
(src/service/resource/service/update.go lines 51-100): the change is
the current service carrying the mutated ports when the count is
positive, nil otherwise; the mutation count is exposed alongside. -/
def newUpdateChangeService (current : KubeService) (desired : List ServicePort) :
    Option KubeService × Nat :=
  ((if 0 < (goUpdatePorts current.Spec.Ports desired).2 then
      some { current with Spec := { Ports := (goUpdatePorts current.Spec.Ports desired).1 } }
    else none),
    (goUpdatePorts current.Spec.Ports desired).2)

/-- `ApplyUpdateChange` of the Service handler
(src/service/resource/service/update.go lines 12-37): true iff the
Services Update API call is issued, which happens exactly when the
change is non-nil. -/
def applyUpdateChangeService (change : Option KubeService) : Bool := change.isSome

/-- Index of the first port with the given numeric port; this is the
position the overwrite of `newUpdateChange` targets. -/
def firstIdxWithPort : List ServicePort → Int → Option Nat
  | [], _ => none
  | p :: rest, item =>
    if p.Port = item then some 0 else (firstIdxWithPort rest item).map (· + 1)

/-! ### Service update diff: basic lemmas -/

lemma getServicePortByPort_nil (x : Int) : getServicePortByPort [] x = none := rfl

lemma getServicePortByPort_cons (p : ServicePort) (rest : List ServicePort) (x : Int) :
    getServicePortByPort (p :: rest) x =
      if p.Port = x then some p else getServicePortByPort rest x := rfl

lemma overwriteFirstByPort_cons (p : ServicePort) (rest : List ServicePort) (d : ServicePort) :
    overwriteFirstByPort (p :: rest) d =
      if p.Port = d.Port then d :: rest else p :: overwriteFirstByPort rest d := rfl

lemma firstIdxWithPort_nil (x : Int) : firstIdxWithPort [] x = none := rfl

lemma firstIdxWithPort_cons (p : ServicePort) (rest : List ServicePort) (x : Int) :
    firstIdxWithPort (p :: rest) x =
      if p.Port = x then some 0 else (firstIdxWithPort rest x).map (· + 1) := rfl

lemma goUpdatePorts_nil (s : List ServicePort) : goUpdatePorts s [] = (s, 0) := rfl

lemma goUpdatePorts_cons_none {s : List ServicePort} {d : ServicePort}
    (ds : List ServicePort) (h : getServicePortByPort s d.Port = none) :
    goUpdatePorts s (d :: ds) =
      ((goUpdatePorts (s ++ [d]) ds).1, (goUpdatePorts (s ++ [d]) ds).2 + 1) := by
  simp only [goUpdatePorts, h]

lemma goUpdatePorts_cons_some_ne {s : List ServicePort} {d cp : ServicePort}
    (ds : List ServicePort) (h : getServicePortByPort s d.Port = some cp)
    (hn : cp.Name ≠ d.Name) :
    goUpdatePorts s (d :: ds) =
      ((goUpdatePorts (overwriteFirstByPort s d) ds).1,
        (goUpdatePorts (overwriteFirstByPort s d) ds).2 + 1) := by
  simp only [goUpdatePorts, h]
  simp [hn]

lemma goUpdatePorts_cons_some_eq {s : List ServicePort} {d cp : ServicePort}
    (ds : List ServicePort) (h : getServicePortByPort s d.Port = some cp)
    (hn : cp.Name = d.Name) :
    goUpdatePorts s (d :: ds) = goUpdatePorts s ds := by
  simp only [goUpdatePorts, h]
  simp [hn]

lemma getServicePortByPort_eq_none_iff (s : List ServicePort) (x : Int) :
    getServicePortByPort s x = none ↔ ∀ p ∈ s, p.Port ≠ x := by
  induction s with
  | nil => simp [getServicePortByPort_nil]
  | cons p rest ih =>
    rw [getServicePortByPort_cons]
    by_cases h : p.Port = x
    · simp [h]
    · simp [h, ih]

lemma firstIdxWithPort_eq_none_iff (s : List ServicePort) (x : Int) :
    firstIdxWithPort s x = none ↔ getServicePortByPort s x = none := by
  induction s with
  | nil => simp [firstIdxWithPort_nil, getServicePortByPort_nil]
  | cons p rest ih =>
    rw [firstIdxWithPort_cons, getServicePortByPort_cons]
    by_cases h : p.Port = x
    · simp [h]
    · simp [h, ih, Option.map_eq_none]

lemma firstIdxWithPort_lt {s : List ServicePort} {x : Int} {j : Nat}
    (h : firstIdxWithPort s x = some j) : j < s.length := by
  induction s generalizing j with
  | nil => rw [firstIdxWithPort_nil] at h; cases h
  | cons p rest ih =>
    rw [firstIdxWithPort_cons] at h
    by_cases hp : p.Port = x
    · rw [if_pos hp] at h
      injection h with hj
      subst hj
      simp
    · rw [if_neg hp] at h
      rcases Option.map_eq_some.mp h with ⟨j', hj', hjj⟩
      subst hjj
      have := ih hj'
      simp only [List.length_cons]
      omega

lemma firstIdxWithPort_get {s : List ServicePort} {x : Int} {j : Nat}
    (h : firstIdxWithPort s x = some j) (hj : j < s.length) :
    (s.get ⟨j, hj⟩).Port = x ∧ getServicePortByPort s x = some (s.get ⟨j, hj⟩) := by
  induction s generalizing j with
  | nil => rw [firstIdxWithPort_nil] at h; cases h
  | cons p rest ih =>
    rw [firstIdxWithPort_cons] at h
    by_cases hp : p.Port = x
    · rw [if_pos hp] at h
      injection h with hj0
      subst hj0
      exact ⟨hp, by rw [getServicePortByPort_cons, if_pos hp]; rfl⟩
    · rw [if_neg hp] at h
      rcases Option.map_eq_some.mp h with ⟨j', hj', hjj⟩
      subst hjj
      have hj'lt : j' < rest.length := firstIdxWithPort_lt hj'
      obtain ⟨h1, h2⟩ := ih hj' hj'lt
      refine ⟨h1, ?_⟩
      rw [getServicePortByPort_cons, if_neg hp, h2]
      rfl

lemma getServicePortByPort_firstIdx {s : List ServicePort} {x : Int} {cp : ServicePort}
    (h : getServicePortByPort s x = some cp) :
    ∃ j, firstIdxWithPort s x = some j := by
  cases hf : firstIdxWithPort s x with
  | none =>
    rw [(firstIdxWithPort_eq_none_iff s x).mp hf] at h
    cases h
  | some j => exact ⟨j, rfl⟩

lemma firstIdxWithPort_append_left {s : List ServicePort} {x : Int} {j : Nat}
    (t : List ServicePort) (h : firstIdxWithPort s x = some j) :
    firstIdxWithPort (s ++ t) x = some j := by
  induction s generalizing j with
  | nil => rw [firstIdxWithPort_nil] at h; cases h
  | cons p rest ih =>
    rw [firstIdxWithPort_cons] at h
    rw [List.cons_append, firstIdxWithPort_cons]
    by_cases hp : p.Port = x
    · rw [if_pos hp] at h ⊢; exact h
    · rw [if_neg hp] at h ⊢
      rcases Option.map_eq_some.mp h with ⟨j', hj', hjj⟩
      rw [ih hj']
      simpa using hjj

lemma firstIdxWithPort_append_one_none {s : List ServicePort} {x : Int} {d : ServicePort}
    (h : firstIdxWithPort s x = none) (hd : d.Port ≠ x) :
    firstIdxWithPort (s ++ [d]) x = none := by
  induction s with
  | nil =>
    simp [firstIdxWithPort_cons, hd, firstIdxWithPort_nil]
  | cons p rest ih =>
    rw [firstIdxWithPort_cons] at h
    rw [List.cons_append, firstIdxWithPort_cons]
    by_cases hp : p.Port = x
    · rw [if_pos hp] at h; cases h
    · rw [if_neg hp] at h ⊢
      rw [ih (Option.map_eq_none.mp h)]
      rfl

lemma overwriteFirstByPort_eq_set {s : List ServicePort} {d : ServicePort} {j : Nat}
    (h : firstIdxWithPort s d.Port = some j) :
    overwriteFirstByPort s d = s.set j d := by
  induction s generalizing j with
  | nil => rw [firstIdxWithPort_nil] at h; cases h
  | cons p rest ih =>
    rw [firstIdxWithPort_cons] at h
    rw [overwriteFirstByPort_cons]
    by_cases hp : p.Port = d.Port
    · rw [if_pos hp] at h
      injection h with hj0
      subst hj0
      rw [if_pos hp]
      rfl
    · rw [if_neg hp] at h ⊢
      rcases Option.map_eq_some.mp h with ⟨j', hj', hjj⟩
      subst hjj
      rw [ih hj']
      rfl

lemma map_port_set_eq {s : List ServicePort} {j : Nat} {d : ServicePort}
    (hj : j < s.length) (hp : (s.get ⟨j, hj⟩).Port = d.Port) :
    (s.set j d).map ServicePort.Port = s.map ServicePort.Port := by
  induction s generalizing j with
  | nil => cases hj
  | cons p rest ih =>
    cases j with
    | zero =>
      simp only [List.get_eq_getElem, List.getElem_cons_zero] at hp
      simp [List.set_cons_zero, hp]
    | succ j' =>
      simp only [List.get_eq_getElem, List.getElem_cons_succ] at hp
      have hj' : j' < rest.length := by simpa using hj
      simp only [List.set_cons_succ, List.map_cons]
      rw [ih hj' hp]

lemma firstIdxWithPort_congr {s₁ s₂ : List ServicePort}
    (h : s₁.map ServicePort.Port = s₂.map ServicePort.Port) (x : Int) :
    firstIdxWithPort s₁ x = firstIdxWithPort s₂ x := by
  induction s₁ generalizing s₂ with
  | nil =>
    cases s₂ with
    | nil => rfl
    | cons q r => cases h
  | cons p rest ih =>
    cases s₂ with
    | nil => cases h
    | cons q r =>
      simp only [List.map_cons, List.cons.injEq] at h
      rw [firstIdxWithPort_cons, firstIdxWithPort_cons, h.1, ih h.2]

lemma find?_congr_on {α : Type} (l : List α) (p q : α → Bool)
    (h : ∀ a ∈ l, p a = q a) : l.find? p = l.find? q := by
  induction l with
  | nil => rfl
  | cons a rest ih =>
    have ha := h a (List.mem_cons_self _ _)
    cases hp : p a with
    | true =>
      rw [List.find?_cons_of_pos _ hp, List.find?_cons_of_pos _ (ha ▸ hp)]
    | false =>
      rw [List.find?_cons_of_neg _ (by simp [hp]), List.find?_cons_of_neg _ (by simp [← ha, hp]),
        ih (fun a' ha' => h a' (List.mem_cons_of_mem _ ha'))]

lemma find?_eq_some_of_unique {α : Type} (l : List α) (p : α → Bool) (d : α)
    (hd : d ∈ l) (hp : p d = true) (huniq : ∀ d' ∈ l, p d' = true → d' = d) :
    l.find? p = some d := by
  induction l with
  | nil => cases hd
  | cons a rest ih =>
    cases hpa : p a with
    | true =>
      rw [List.find?_cons_of_pos _ hpa, huniq a (List.mem_cons_self _ _) hpa]
    | false =>
      rw [List.find?_cons_of_neg _ (by simp [hpa])]
      rcases List.mem_cons.mp hd with h1 | h1
      · subst h1; rw [hp] at hpa; cases hpa
      · exact ih h1 (fun d' hd' => huniq d' (List.mem_cons_of_mem _ hd'))

lemma goUpdatePorts_length_le : ∀ (ds s : List ServicePort),
    s.length ≤ (goUpdatePorts s ds).1.length := by
  intro ds
  induction ds with
  | nil => intro s; simp [goUpdatePorts_nil]
  | cons d rest ih =>
    intro s
    cases hcp : getServicePortByPort s d.Port with
    | none =>
      rw [goUpdatePorts_cons_none rest hcp]
      dsimp only
      have h1 := ih (s ++ [d])
      simp only [List.length_append, List.length_singleton] at h1
      omega
    | some cp =>
      by_cases hn : cp.Name = d.Name
      · rw [goUpdatePorts_cons_some_eq rest hcp hn]
        exact ih s
      · rw [goUpdatePorts_cons_some_ne rest hcp hn]
        dsimp only
        obtain ⟨j, hj⟩ := getServicePortByPort_firstIdx hcp
        rw [overwriteFirstByPort_eq_set hj]
        have h1 := ih (s.set j d)
        simpa using h1

lemma firstIdxWithPort_getElem {s : List ServicePort} {x : Int} {j : Nat}
    (h : firstIdxWithPort s x = some j) :
    ∃ q : ServicePort, s[j]? = some q ∧ q.Port = x ∧ getServicePortByPort s x = some q := by
  have hj : j < s.length := firstIdxWithPort_lt h
  obtain ⟨h1, h2⟩ := firstIdxWithPort_get h hj
  refine ⟨s.get ⟨j, hj⟩, ?_, h1, h2⟩
  rw [List.getElem?_eq_getElem hj]
  rfl

/-- The mutation condition of the service update diff at position i of
the current list: the desired port targets exactly the first position
carrying its numeric port, and mutates it only when the name there (q)
differs. -/
def updPred (s : List ServicePort) (i : Nat) (q d : ServicePort) : Bool :=
  decide (firstIdxWithPort s d.Port = some i) && decide (d.Name ≠ q.Name)

lemma goUpdatePorts_getElem_char :
    ∀ (ds s : List ServicePort), (ds.map ServicePort.Port).Nodup →
      ∀ (i : Nat) (q : ServicePort), s[i]? = some q →
        (goUpdatePorts s ds).1[i]? = some ((ds.find? (updPred s i q)).getD q) := by
  intro ds
  induction ds with
  | nil =>
    intro s _ i q hq
    simpa [goUpdatePorts_nil] using hq
  | cons d rest ih =>
    intro s hnd i q hq
    simp only [List.map_cons, List.nodup_cons] at hnd
    obtain ⟨hnd1, hnd2⟩ := hnd
    have hilt : i < s.length := by
      by_contra hcon
      rw [List.getElem?_eq_none (by omega)] at hq
      cases hq
    cases hcp : getServicePortByPort s d.Port with
    | none =>
      have hfi : firstIdxWithPort s d.Port = none :=
        (firstIdxWithPort_eq_none_iff s d.Port).mpr hcp
      have hhead : updPred s i q d = false := by simp [updPred, hfi]
      rw [goUpdatePorts_cons_none rest hcp]
      dsimp only
      rw [List.find?_cons_of_neg _ (by simp [hhead])]
      have hq' : (s ++ [d])[i]? = some q := by
        rw [List.getElem?_append, if_pos hilt]
        exact hq
      rw [ih (s ++ [d]) hnd2 i q hq']
      congr 2
      apply find?_congr_on
      intro d' hd'
      unfold updPred
      congr 1
      cases h2 : firstIdxWithPort s d'.Port with
      | some j => simp [firstIdxWithPort_append_left [d] h2, h2]
      | none =>
        have hdp : d.Port ≠ d'.Port := by
          intro hh
          exact hnd1 (by rw [hh]; exact List.mem_map.mpr ⟨d', hd', rfl⟩)
        rw [firstIdxWithPort_append_one_none h2 hdp]
    | some cp =>
      by_cases hn : cp.Name = d.Name
      · rw [goUpdatePorts_cons_some_eq rest hcp hn]
        have hhead : updPred s i q d = false := by
          unfold updPred
          cases h1 : decide (firstIdxWithPort s d.Port = some i) with
          | false => simp
          | true =>
            have h2 := of_decide_eq_true h1
            obtain ⟨q', hq', hqp, hgp⟩ := firstIdxWithPort_getElem h2
            have hq'q : q' = q := by
              rw [hq'] at hq
              injection hq
            subst hq'q
            have hcpq : cp = q' := by
              rw [hgp] at hcp
              injection hcp with hh
              exact hh.symm
            have hname : d.Name = q'.Name := by rw [← hcpq, hn]
            simp [hname]
        rw [List.find?_cons_of_neg _ (by simp [hhead])]
        exact ih s hnd2 i q hq
      · rw [goUpdatePorts_cons_some_ne rest hcp hn]
        dsimp only
        obtain ⟨j, hj⟩ := getServicePortByPort_firstIdx hcp
        obtain ⟨qj, hqj, hqjp, hgpj⟩ := firstIdxWithPort_getElem hj
        have hjlt : j < s.length := firstIdxWithPort_lt hj
        have hcpqj : qj = cp := by
          rw [hgpj] at hcp
          injection hcp
        have hset : overwriteFirstByPort s d = s.set j d := overwriteFirstByPort_eq_set hj
        by_cases hij : i = j
        · subst hij
          have hqq : qj = q := by
            rw [hqj] at hq
            injection hq
          have hhead : updPred s i q d = true := by
            unfold updPred
            have hname : d.Name ≠ q.Name := by
              intro hh
              exact hn (by rw [← hcpqj, hqq, hh])
            simp [hj, hname]
          rw [List.find?_cons_of_pos _ hhead]
          have hq2 : (s.set i d)[i]? = some d := by
            rw [List.getElem?_set_self', List.getElem?_eq_getElem hilt]
            rfl
          rw [hset, ih (s.set i d) hnd2 i d hq2]
          have hrest : rest.find? (updPred (s.set i d) i d) = none := by
            rw [List.find?_eq_none]
            intro d' hd'
            unfold updPred
            simp only [Bool.and_eq_true, decide_eq_true_eq, not_and]
            intro hfind _
            obtain ⟨q2, hq2', hq2p, _⟩ := firstIdxWithPort_getElem hfind
            rw [List.getElem?_set_self', List.getElem?_eq_getElem hilt] at hq2'
            have hq2d : q2 = d := by injection hq2' with hh; exact hh.symm
            subst hq2d
            exact hnd1 (by rw [hq2p]; exact List.mem_map.mpr ⟨d', hd', rfl⟩)
          rw [hrest]
          rfl
        · have hhead : updPred s i q d = false := by
            unfold updPred
            have : ¬ (some j = some (i : Nat)) := by
              intro hh
              injection hh with hh2
              exact hij hh2.symm
            simp [hj, this]
          rw [List.find?_cons_of_neg _ (by simp [hhead])]
          have hq' : (s.set j d)[i]? = some q := by
            rw [List.getElem?_set_ne (fun hh => hij hh.symm)]
            exact hq
          rw [hset, ih (s.set j d) hnd2 i q hq']
          congr 2
          apply find?_congr_on
          intro d' hd'
          unfold updPred
          congr 1
          have hget : s.get ⟨j, hjlt⟩ = qj := by
            rw [List.getElem?_eq_getElem hjlt] at hqj
            injection hqj
          have hmap : (s.set j d).map ServicePort.Port = s.map ServicePort.Port :=
            map_port_set_eq hjlt (by rw [hget, hqjp])
          rw [firstIdxWithPort_congr hmap]

/-- C4. Orphan healing: let s be the current port list and let the
desired ports carry pairwise distinct numeric ports (the declared input
invariant). Then (i) the update diff never shortens the list, (ii) for
every desired d, if the first current port carrying the numeric port of
d sits at position j and its name differs from the name of d, the
result carries exactly d at position j, (iii) every current position
that is not such a first position with a differing name is unchanged,
and (iv) every current position keeps its numeric port. -/
theorem service_update_orphan_healing (current : KubeService) (desired : List ServicePort)
    (hnd : (desired.map ServicePort.Port).Nodup) :
    current.Spec.Ports.length ≤ (goUpdatePorts current.Spec.Ports desired).1.length ∧
    (∀ d ∈ desired, ∀ (j : Nat) (q : ServicePort),
      firstIdxWithPort current.Spec.Ports d.Port = some j →
      current.Spec.Ports[j]? = some q → q.Name ≠ d.Name →
      (goUpdatePorts current.Spec.Ports desired).1[j]? = some d) ∧
    (∀ (i : Nat) (q : ServicePort), current.Spec.Ports[i]? = some q →
      (∀ d ∈ desired, firstIdxWithPort current.Spec.Ports d.Port = some i → q.Name = d.Name) →
      (goUpdatePorts current.Spec.Ports desired).1[i]? = some q) ∧
    (∀ (i : Nat) (q : ServicePort), current.Spec.Ports[i]? = some q →
      ∃ q' : ServicePort,
        (goUpdatePorts current.Spec.Ports desired).1[i]? = some q' ∧ q'.Port = q.Port) := by
  refine ⟨goUpdatePorts_length_le desired current.Spec.Ports, ?_, ?_, ?_⟩
  · intro d hd j q hj hq hname
    rw [goUpdatePorts_getElem_char desired current.Spec.Ports hnd j q hq]
    have hfind : desired.find? (updPred current.Spec.Ports j q) = some d := by
      apply find?_eq_some_of_unique desired _ d hd
      · unfold updPred
        simp [hj, Ne.symm hname]
      · intro d' hd' hp'
        unfold updPred at hp'
        simp only [Bool.and_eq_true, decide_eq_true_eq] at hp'
        obtain ⟨hfix, _⟩ := hp'
        obtain ⟨q2, hq2, hq2p, _⟩ := firstIdxWithPort_getElem hfix
        have hq2q : q2 = q := by
          rw [hq2] at hq
          injection hq
        subst hq2q
        obtain ⟨q3, hq3, hq3p, _⟩ := firstIdxWithPort_getElem hj
        have hq3q : q3 = q2 := by
          rw [hq3] at hq
          injection hq
        subst hq3q
        exact List.inj_on_of_nodup_map hnd hd' hd (by rw [← hq2p, hq3p])
    rw [hfind]
    rfl
  · intro i q hq hsame
    rw [goUpdatePorts_getElem_char desired current.Spec.Ports hnd i q hq]
    have hfind : desired.find? (updPred current.Spec.Ports i q) = none := by
      rw [List.find?_eq_none]
      intro d hd
      unfold updPred
      simp only [Bool.and_eq_true, decide_eq_true_eq, not_and]
      intro hfix
      simp [hsame d hd hfix]
    rw [hfind]
    rfl
  · intro i q hq
    rw [goUpdatePorts_getElem_char desired current.Spec.Ports hnd i q hq]
    cases hfind : desired.find? (updPred current.Spec.Ports i q) with
    | none => exact ⟨q, rfl, rfl⟩
    | some d =>
      refine ⟨d, rfl, ?_⟩
      have hp := List.find?_some hfind
      unfold updPred at hp
      simp only [Bool.and_eq_true, decide_eq_true_eq] at hp
      obtain ⟨hfix, _⟩ := hp
      obtain ⟨q2, hq2, hq2p, _⟩ := firstIdxWithPort_getElem hfix
      have hq2q : q2 = q := by
        rw [hq2] at hq
        injection hq
      subst hq2q
      rw [hq2p]

/-- The update loop leaves the current list untouched and counts zero
when every desired port is already present by numeric port under the
same name: mirrors the no-mutation pass through the loop body. -/
lemma goUpdatePorts_noop : ∀ (ds s : List ServicePort),
    (∀ d ∈ ds, ∃ cp, getServicePortByPort s d.Port = some cp ∧ cp.Name = d.Name) →
    goUpdatePorts s ds = (s, 0) := by
  intro ds
  induction ds with
  | nil => intro s _; rfl
  | cons d rest ih =>
    intro s h
    obtain ⟨cp, hcp, hn⟩ := h d (List.mem_cons_self _ _)
    rw [goUpdatePorts_cons_some_eq rest hcp hn]
    exact ih s (fun d' hd' => h d' (List.mem_cons_of_mem _ hd'))

/-- C6. The Service update change is non-nil exactly when the mutation
count is positive; and when every desired numeric port is already
present in the current list under its canonical name, the change is nil
and the apply step issues no Update API call. -/
theorem service_update_change_iff_count (current : KubeService) (desired : List ServicePort) :
    ((newUpdateChangeService current desired).1.isSome = true ↔
      0 < (newUpdateChangeService current desired).2) ∧
    ((∀ d ∈ desired, ∃ cp, getServicePortByPort current.Spec.Ports d.Port = some cp ∧
        cp.Name = d.Name) →
      (newUpdateChangeService current desired).1 = none ∧
      applyUpdateChangeService (newUpdateChangeService current desired).1 = false) := by
  constructor
  · unfold newUpdateChangeService
    by_cases h : 0 < (goUpdatePorts current.Spec.Ports desired).2
    · simp [h]
    · simp [h]
  · intro h
    have hno := goUpdatePorts_noop desired current.Spec.Ports h
    unfold newUpdateChangeService applyUpdateChangeService
    rw [hno]
    simp

/-- Seed object of scenarios 2 and 6 of the spec: cluster p1l6x with
three protocol ports. -/
def objP1l6x : CustomObject :=
  { Spec :=
      { GuestCluster := { ID := "p1l6x", Namespace := "p1l6x", Service := "worker" }
        HostCluster :=
          { IngressController :=
              { ConfigMap := "ingress-controller"
                Namespace := "kube-system"
                Service := "ingress-controller" } }
        ProtocolPorts :=
          [{ IngressPort := 30010, LBPort := 31000, Protocol := "http" },
           { IngressPort := 30011, LBPort := 31001, Protocol := "https" },
           { IngressPort := 30012, LBPort := 31002, Protocol := "udp" }] }
    DeletionTimestamp := none }

/-- Current Service of scenario 6: right numeric ports, orphaned names. -/
def svcOrphan : KubeService :=
  { Metadata := "ingress-controller"
    Spec :=
      { Ports :=
          [{ Name := "http-30010-foo", Protocol := "TCP", Port := 31000,
             TargetPort := 31000, NodePort := 31000 },
           { Name := "https-30011-bar", Protocol := "TCP", Port := 31001,
             TargetPort := 31001, NodePort := 31001 },
           { Name := "udp-30012-baz", Protocol := "TCP", Port := 31002,
             TargetPort := 31002, NodePort := 31002 }] } }

/-- Witness for C4 at scenario 6. -/
theorem service_update_orphan_healing_witness :
    ((getDesiredStateServicePorts objP1l6x).map ServicePort.Port).Nodup ∧
    (svcOrphan.Spec.Ports.length ≤
        (goUpdatePorts svcOrphan.Spec.Ports (getDesiredStateServicePorts objP1l6x)).1.length ∧
      (∀ d ∈ getDesiredStateServicePorts objP1l6x, ∀ (j : Nat) (q : ServicePort),
        firstIdxWithPort svcOrphan.Spec.Ports d.Port = some j →
        svcOrphan.Spec.Ports[j]? = some q → q.Name ≠ d.Name →
        (goUpdatePorts svcOrphan.Spec.Ports (getDesiredStateServicePorts objP1l6x)).1[j]? =
          some d) ∧
      (∀ (i : Nat) (q : ServicePort), svcOrphan.Spec.Ports[i]? = some q →
        (∀ d ∈ getDesiredStateServicePorts objP1l6x,
          firstIdxWithPort svcOrphan.Spec.Ports d.Port = some i → q.Name = d.Name) →
        (goUpdatePorts svcOrphan.Spec.Ports (getDesiredStateServicePorts objP1l6x)).1[i]? =
          some q) ∧
      (∀ (i : Nat) (q : ServicePort), svcOrphan.Spec.Ports[i]? = some q →
        ∃ q' : ServicePort, (goUpdatePorts svcOrphan.Spec.Ports
            (getDesiredStateServicePorts objP1l6x)).1[i]? = some q' ∧ q'.Port = q.Port)) :=
  ⟨by decide, service_update_orphan_healing svcOrphan (getDesiredStateServicePorts objP1l6x)
    (by decide)⟩

/-- Canonical current Service for cluster al9qy (the state a first
successful reconcile establishes). -/
def svcAl9qy : KubeService :=
  { Metadata := "ingress-controller"
    Spec :=
      { Ports :=
          [{ Name := "http-30010-al9qy", Protocol := "TCP", Port := 31000,
             TargetPort := 31000, NodePort := 31000 }] } }

/-- Witness for C6: at the canonical current Service and its own desired
ports the hypothesis holds and the change is nil. -/
theorem service_update_change_iff_count_witness :
    (∀ d ∈ getDesiredStateServicePorts objAl9qy,
      ∃ cp, getServicePortByPort svcAl9qy.Spec.Ports d.Port = some cp ∧ cp.Name = d.Name) ∧
    ((newUpdateChangeService svcAl9qy (getDesiredStateServicePorts objAl9qy)).1 = none ∧
      applyUpdateChangeService
        (newUpdateChangeService svcAl9qy (getDesiredStateServicePorts objAl9qy)).1 = false) :=
  ⟨by decide,
    (service_update_change_iff_count svcAl9qy (getDesiredStateServicePorts objAl9qy)).2
      (by decide)⟩

/-! ### ConfigMap delete diff (C3) -/

/-- `newDeleteChange` of the configmapv2 handler
(src/unnamed/part_020 lines 50-92), data part: rebuild the data keeping
exactly the pairs that do not match a desired pair by key AND value. -/
def newDeleteChangeConfigMapData (current desired : GoStrMap) : GoStrMap :=
  current.filter (fun kv => ! inConfigMapData desired kv.1 kv.2)

/-- The delete change handed to the framework: the current ConfigMap
with the filtered data; the Go function always returns this non-nil
pointer. -/
def newDeleteChangeConfigMap (current : ConfigMap) (desired : GoStrMap) : Option ConfigMap :=
  some { current with Data := newDeleteChangeConfigMapData current.Data desired }

lemma uniqueKeys_filter (m : GoStrMap) (p : String × String → Bool) (h : UniqueKeys m) :
    UniqueKeys (m.filter p) := by
  unfold UniqueKeys at *
  exact List.Nodup.sublist (List.Sublist.map Prod.fst (List.filter_sublist m)) h

/-- C3. ConfigMap delete diff: a pair survives the delete change exactly
when it is a current pair that does not coincide, in key AND value,
with a canonical desired pair of the object; in particular a current
pair whose key is desired but whose value differs from the canonical
value is left intact. -/
theorem configmap_delete_diff_exact (o : CustomObject) (current : ConfigMap)
    (hcur : UniqueKeys current.Data) :
    (∀ k v : String,
      mapLookup (newDeleteChangeConfigMapData current.Data (getDesiredStateConfigMapData o)) k
          = some v ↔
        (mapLookup current.Data k = some v ∧
          inConfigMapData (getDesiredStateConfigMapData o) k v = false)) ∧
    (∀ k v v' : String, mapLookup current.Data k = some v →
      mapLookup (getDesiredStateConfigMapData o) k = some v' → v' ≠ v →
      mapLookup (newDeleteChangeConfigMapData current.Data (getDesiredStateConfigMapData o)) k
        = some v) := by
  have hufil : UniqueKeys (newDeleteChangeConfigMapData current.Data
      (getDesiredStateConfigMapData o)) :=
    uniqueKeys_filter _ _ hcur
  have hmain : ∀ k v : String,
      mapLookup (newDeleteChangeConfigMapData current.Data (getDesiredStateConfigMapData o)) k
          = some v ↔
        (mapLookup current.Data k = some v ∧
          inConfigMapData (getDesiredStateConfigMapData o) k v = false) := by
    intro k v
    constructor
    · intro hl
      have hmem := mem_of_mapLookup_eq_some hl
      unfold newDeleteChangeConfigMapData at hmem
      rw [List.mem_filter] at hmem
      obtain ⟨hmem1, hmem2⟩ := hmem
      simp only [Bool.not_eq_true'] at hmem2
      exact ⟨mapLookup_eq_some_of_mem hcur hmem1, hmem2⟩
    · rintro ⟨hl, hnotin⟩
      apply mapLookup_eq_some_of_mem hufil
      unfold newDeleteChangeConfigMapData
      rw [List.mem_filter]
      exact ⟨mem_of_mapLookup_eq_some hl, by simp [hnotin]⟩
  refine ⟨hmain, ?_⟩
  intro k v v' hcv hdv hne
  apply (hmain k v).mpr
  refine ⟨hcv, ?_⟩
  cases hin : inConfigMapData (getDesiredStateConfigMapData o) k v with
  | false => rfl
  | true =>
    exfalso
    have hmem := (inConfigMapData_iff_mem _ _ _).mp hin
    have := mapLookup_eq_some_of_mem (uniqueKeys_getDesiredStateConfigMapData o) hmem
    rw [hdv] at this
    injection this with hh
    exact hne hh

/-- Current ConfigMap of seed scenario 4: one owned pair and one
leftover pair owned by nobody else but not canonical for this object. -/
def cmAl9qyTwoKeys : ConfigMap :=
  { Metadata := "ingress-controller"
    Data := [("31000", "al9qy/worker:30010"), ("31001", "al9qy/worker:30011")] }

/-- Witness for C3 at scenario 4. -/
theorem configmap_delete_diff_exact_witness :
    UniqueKeys cmAl9qyTwoKeys.Data ∧
    ((∀ k v : String,
      mapLookup
          (newDeleteChangeConfigMapData cmAl9qyTwoKeys.Data
            (getDesiredStateConfigMapData objAl9qy)) k = some v ↔
        (mapLookup cmAl9qyTwoKeys.Data k = some v ∧
          inConfigMapData (getDesiredStateConfigMapData objAl9qy) k v = false)) ∧
    (∀ k v v' : String, mapLookup cmAl9qyTwoKeys.Data k = some v →
      mapLookup (getDesiredStateConfigMapData objAl9qy) k = some v' → v' ≠ v →
      mapLookup
          (newDeleteChangeConfigMapData cmAl9qyTwoKeys.Data
            (getDesiredStateConfigMapData objAl9qy)) k = some v)) :=
  ⟨by decide, configmap_delete_diff_exact objAl9qy cmAl9qyTwoKeys (by decide)⟩

/-! ### Idempotence (C5) -/

/-- `newUpdateChange` of the ConfigMap handler
(src/service/ingressconfig/v2/resource/configmap/update.go lines
51-79): counts and applies the missing desired pairs. Unlike the
Service handler, the function returns `updateState` — the current
ConfigMap pointer — UNCONDITIONALLY, with no `count > 0` guard, so the
change is never nil. -/
def newUpdateChangeConfigMap (current : ConfigMap) (desired : GoStrMap) :
    Option ConfigMap × Nat :=
  (some { current with
      Data := (desired.foldl
        (fun st kv =>
          if inConfigMapData st.1 kv.1 kv.2 then st else (mapInsert st.1 kv.1 kv.2, st.2 + 1))
        (current.Data, 0)).1 },
    (desired.foldl
      (fun st kv =>
        if inConfigMapData st.1 kv.1 kv.2 then st else (mapInsert st.1 kv.1 kv.2, st.2 + 1))
      (current.Data, 0)).2)

/-- `ApplyUpdateChange` of the ConfigMap handler
(src/service/ingressconfig/v2/resource/configmap/update.go lines
12-37): the ConfigMaps Update API call is issued iff the change is
non-nil. -/
def applyUpdateChangeConfigMap (change : Option ConfigMap) : Bool := change.isSome

/-- `ApplyCreateChange` of the ConfigMap handler
(src/service/resource/configmap/create.go lines 10-35): the ConfigMaps
Update API call is issued iff the change is non-nil. -/
def applyCreateChangeConfigMap (change : Option ConfigMap) : Bool := change.isSome

/-- `inServicePorts` (src/service/resource/service/resource.go):
membership by `pp.String() == p.String()`; on the five modelled fields
the stringified port tuple coincides with structural equality. -/
def inServicePorts (ports : List ServicePort) (p : ServicePort) : Bool :=
  ports.any (fun pp => pp = p)

/-- `newCreateChange` of the Service handler
(src/service/resource/service/resource.go lines 147-188), ports part:
append every desired port not already present; the enclosing function
always returns the current service pointer. -/
def newCreateChangeServicePorts (currentPorts dState : List ServicePort) : List ServicePort :=
  dState.foldl
    (fun createPorts p =>
      if inServicePorts createPorts p then createPorts else createPorts ++ [p])
    currentPorts

lemma configMapUpdateFold_noop :
    ∀ (desired : GoStrMap) (st : GoStrMap × Nat),
      (∀ kv ∈ desired, inConfigMapData st.1 kv.1 kv.2 = true) →
      desired.foldl
        (fun st kv =>
          if inConfigMapData st.1 kv.1 kv.2 then st else (mapInsert st.1 kv.1 kv.2, st.2 + 1))
        st = st := by
  intro desired
  induction desired with
  | nil => intro st _; rfl
  | cons kv rest ih =>
    intro st h
    have h1 := h kv (List.mem_cons_self _ _)
    simp only [List.foldl_cons, h1, if_true]
    exact ih st (fun kv' hkv' => h kv' (List.mem_cons_of_mem _ hkv'))

lemma newCreateChangeConfigMapData_noop (desired current : GoStrMap)
    (h : ∀ kv ∈ desired, inConfigMapData current kv.1 kv.2 = true) :
    newCreateChangeConfigMapData current desired = current := by
  unfold newCreateChangeConfigMapData
  induction desired with
  | nil => rfl
  | cons kv rest ih =>
    have h1 := h kv (List.mem_cons_self _ _)
    simp only [List.foldl_cons, h1, if_true]
    exact ih (fun kv' hkv' => h kv' (List.mem_cons_of_mem _ hkv'))

lemma getServicePortByPort_mem {s : List ServicePort} {x : Int} {cp : ServicePort}
    (h : getServicePortByPort s x = some cp) : cp ∈ s := by
  induction s with
  | nil => rw [getServicePortByPort_nil] at h; cases h
  | cons p rest ih =>
    rw [getServicePortByPort_cons] at h
    by_cases hp : p.Port = x
    · rw [if_pos hp] at h
      injection h with hh
      rw [← hh]
      exact List.mem_cons_self _ _
    · rw [if_neg hp] at h
      exact List.mem_cons_of_mem _ (ih h)

lemma newCreateChangeServicePorts_noop (dState currentPorts : List ServicePort)
    (h : ∀ p ∈ dState, inServicePorts currentPorts p = true) :
    newCreateChangeServicePorts currentPorts dState = currentPorts := by
  unfold newCreateChangeServicePorts
  induction dState with
  | nil => rfl
  | cons p rest ih =>
    have h1 := h p (List.mem_cons_self _ _)
    simp only [List.foldl_cons, h1, if_true]
    exact ih (fun p' hp' => h p' (List.mem_cons_of_mem _ hp'))

/-- C5 counterexample: with a fetched ConfigMap that already contains
every canonical desired entry of the al9qy object, the ConfigMap
handler update diff counts zero mutations, yet the change it returns is
non-nil (the unchanged current map), so the apply step issues the
Update API call — contradicting the claim that the second reconcile
computes empty changes and issues no write. -/
theorem idempotent_second_reconcile_counterexample :
    (newUpdateChangeConfigMap cmCurrentAl9qy (getDesiredStateConfigMapData objAl9qy)).2 = 0 ∧
    (newUpdateChangeConfigMap cmCurrentAl9qy (getDesiredStateConfigMapData objAl9qy)).1 ≠
      none ∧
    applyUpdateChangeConfigMap
      (newUpdateChangeConfigMap cmCurrentAl9qy (getDesiredStateConfigMapData objAl9qy)).1 =
      true := by
  refine ⟨by decide, by decide, by decide⟩

/-- C5 (amended). When the fetched current state already contains every
canonical desired entry, the diff computations leave the data
untouched: the Service update change is nil, counts zero and its apply
issues no write; but the ConfigMap update change is the unchanged
current ConfigMap returned non-nil (count zero), so its apply still
issues an Update API write, and the create changes likewise return the
unchanged current resource (their applies also write). The second
reconcile is idempotent in effect — every write carries exactly the
fetched state — but not write-free. -/
theorem idempotent_second_reconcile_amended (o : CustomObject) (cm : ConfigMap)
    (svc : KubeService)
    (hcm : ∀ kv ∈ getDesiredStateConfigMapData o, inConfigMapData cm.Data kv.1 kv.2 = true)
    (hsvc : ∀ d ∈ getDesiredStateServicePorts o,
      getServicePortByPort svc.Spec.Ports d.Port = some d) :
    ((newUpdateChangeService svc (getDesiredStateServicePorts o)).1 = none ∧
      (newUpdateChangeService svc (getDesiredStateServicePorts o)).2 = 0 ∧
      applyUpdateChangeService
        (newUpdateChangeService svc (getDesiredStateServicePorts o)).1 = false) ∧
    (newUpdateChangeConfigMap cm (getDesiredStateConfigMapData o) = (some cm, 0) ∧
      applyUpdateChangeConfigMap
        (newUpdateChangeConfigMap cm (getDesiredStateConfigMapData o)).1 = true) ∧
    (newCreateChangeConfigMap cm (getDesiredStateConfigMapData o) = some cm ∧
      applyCreateChangeConfigMap
        (newCreateChangeConfigMap cm (getDesiredStateConfigMapData o)) = true) ∧
    newCreateChangeServicePorts svc.Spec.Ports (getDesiredStateServicePorts o) =
      svc.Spec.Ports := by
  have hsvc' : ∀ d ∈ getDesiredStateServicePorts o,
      ∃ cp, getServicePortByPort svc.Spec.Ports d.Port = some cp ∧ cp.Name = d.Name :=
    fun d hd => ⟨d, hsvc d hd, rfl⟩
  have hnoop := goUpdatePorts_noop (getDesiredStateServicePorts o) svc.Spec.Ports hsvc'
  have hfold := configMapUpdateFold_noop (getDesiredStateConfigMapData o) (cm.Data, 0) hcm
  refine ⟨⟨?_, ?_, ?_⟩, ⟨?_, ?_⟩, ⟨?_, ?_⟩, ?_⟩
  · unfold newUpdateChangeService
    rw [hnoop]
    simp
  · unfold newUpdateChangeService
    rw [hnoop]
  · unfold newUpdateChangeService applyUpdateChangeService
    rw [hnoop]
    simp
  · unfold newUpdateChangeConfigMap
    rw [hfold]
  · unfold newUpdateChangeConfigMap applyUpdateChangeConfigMap
    rw [hfold]
    simp
  · unfold newCreateChangeConfigMap
    rw [newCreateChangeConfigMapData_noop _ _ hcm]
  · unfold newCreateChangeConfigMap applyCreateChangeConfigMap
    simp
  · apply newCreateChangeServicePorts_noop
    intro p hp
    unfold inServicePorts
    rw [List.any_eq_true]
    exact ⟨p, getServicePortByPort_mem (hsvc p hp), by simp⟩

/-- Witness for the amended C5 at the canonical al9qy state. -/
theorem idempotent_second_reconcile_amended_witness :
    ((∀ kv ∈ getDesiredStateConfigMapData objAl9qy,
        inConfigMapData cmCurrentAl9qy.Data kv.1 kv.2 = true) ∧
      (∀ d ∈ getDesiredStateServicePorts objAl9qy,
        getServicePortByPort svcAl9qy.Spec.Ports d.Port = some d)) ∧
    (((newUpdateChangeService svcAl9qy (getDesiredStateServicePorts objAl9qy)).1 = none ∧
      (newUpdateChangeService svcAl9qy (getDesiredStateServicePorts objAl9qy)).2 = 0 ∧
      applyUpdateChangeService
        (newUpdateChangeService svcAl9qy (getDesiredStateServicePorts objAl9qy)).1 = false) ∧
    (newUpdateChangeConfigMap cmCurrentAl9qy (getDesiredStateConfigMapData objAl9qy) =
        (some cmCurrentAl9qy, 0) ∧
      applyUpdateChangeConfigMap
        (newUpdateChangeConfigMap cmCurrentAl9qy
          (getDesiredStateConfigMapData objAl9qy)).1 = true) ∧
    (newCreateChangeConfigMap cmCurrentAl9qy (getDesiredStateConfigMapData objAl9qy) =
        some cmCurrentAl9qy ∧
      applyCreateChangeConfigMap
        (newCreateChangeConfigMap cmCurrentAl9qy (getDesiredStateConfigMapData objAl9qy)) =
        true) ∧
    newCreateChangeServicePorts svcAl9qy.Spec.Ports (getDesiredStateServicePorts objAl9qy) =
      svcAl9qy.Spec.Ports) :=
  ⟨⟨by decide, by decide⟩,
    idempotent_second_reconcile_amended objAl9qy cmCurrentAl9qy svcAl9qy (by decide) (by decide)⟩

/-! ### Deletion guard and delete reconcile (C7) -/

/-- `IsDeleted` of the ingressconfig/v2 key package. Only its caller is
under src; src/unnamed/part_018 carries the equivalent
`IsInDeletionState` (`GetDeletionTimestamp() != nil`), and the spec
reads: IsDeleted(o) is true iff the object has a deletion timestamp
set. -/
def IsDeleted (o : CustomObject) : Bool := o.DeletionTimestamp.isSome

/-- `ClusterNamespace` of the key package (src/unnamed/part_018 lines
12-14): the namespace recorded in the guest cluster spec. -/
def ClusterNamespaceKey (o : CustomObject) : String := o.Spec.GuestCluster.Namespace

/-- Outcome of one handler `GetCurrentState` call: the state and error
results together with the two context flags the code may set
(resourcecanceledcontext, finalizerskeptcontext). -/
structure CurrentStateResult (α : Type) where
  State : Option α
  Err : Option String
  Canceled : Bool
  FinalizerKept : Bool
deriving DecidableEq, Repr

/-- `GetCurrentState` of the ConfigMap handler with the deletion guard
(src/service/ingressconfig/v2/resource/configmap/current.go lines
15-62). The fetched ConfigMap and the pod lister stand for the two
Kubernetes API reads (the nil-Data fix is implicit: Data is total
here). On a deleted object with pods still listed in the cluster
namespace the handler cancels the resource, marks the finalizer kept
and returns nil state and nil error; otherwise it returns the fetched
map. -/
def getCurrentStateConfigMapV2 (o : CustomObject) (k8sConfigMap : ConfigMap)
    (pods : String → List String) : CurrentStateResult ConfigMap :=
  if IsDeleted o then
    if (pods (ClusterNamespaceKey o)).length ≠ 0 then
      { State := none, Err := none, Canceled := true, FinalizerKept := true }
    else
      { State := some k8sConfigMap, Err := none, Canceled := false, FinalizerKept := false }
  else
    { State := some k8sConfigMap, Err := none, Canceled := false, FinalizerKept := false }

/-- `GetCurrentState` of the Service handler with the same deletion
guard (src/service/ingressconfig/v2/resource/service/resource.go lines
131-172 of the concatenated sources). -/
def getCurrentStateServiceV2 (o : CustomObject) (k8sService : KubeService)
    (pods : String → List String) : CurrentStateResult KubeService :=
  if IsDeleted o then
    if (pods (ClusterNamespaceKey o)).length ≠ 0 then
      { State := none, Err := none, Canceled := true, FinalizerKept := true }
    else
      { State := some k8sService, Err := none, Canceled := false, FinalizerKept := false }
  else
    { State := some k8sService, Err := none, Canceled := false, FinalizerKept := false }

/-- `newDeleteChange` of the Service handler
(src/service/ingressconfig/v2/resource/service/delete.go lines 52-92),
ports part: keep exactly the current ports not matching a desired
port. -/
def newDeleteChangeServicePorts (currentPorts dState : List ServicePort) : List ServicePort :=
  currentPorts.filter (fun p => ! inServicePorts dState p)

/-- The Service delete change: the current service with the filtered
ports, always returned non-nil. -/
def newDeleteChangeService (current : KubeService) (dState : List ServicePort) :
    Option KubeService :=
  some { current with Spec := { Ports := newDeleteChangeServicePorts current.Spec.Ports dState } }

/-- Count of API writes and final finalizer state of one
reconcile-on-delete run. -/
structure DeleteReconcileOutcome where
  APIWrites : Nat
  FinalizerRemoved : Bool
deriving DecidableEq, Repr

/-- Modelled from the spec: the reconcile-on-delete procedure of the
reconciler core (spec section 4.4; the core lives in the operatorkit
dependency, which is not part of this repository snapshot). For each
handler in the fixed order ConfigMap, Service: fetch the current state;
if the handler cancelled, skip the remaining handlers and keep the
finalizer; otherwise compute the desired state and the delete patch and
apply it (one Update API write per non-nil delete change). The
finalizer is removed only when no handler cancelled. -/
def reconcileOnDelete (o : CustomObject) (cmFetched : ConfigMap) (svcFetched : KubeService)
    (pods : String → List String) : DeleteReconcileOutcome :=
  let r1 := getCurrentStateConfigMapV2 o cmFetched pods
  if r1.Canceled then { APIWrites := 0, FinalizerRemoved := false }
  else
    match r1.State with
    | none => { APIWrites := 0, FinalizerRemoved := false }
    | some cm =>
      let w1 : Nat :=
        if (newDeleteChangeConfigMap cm (getDesiredStateConfigMapData o)).isSome then 1 else 0
      let r2 := getCurrentStateServiceV2 o svcFetched pods
      if r2.Canceled then { APIWrites := w1, FinalizerRemoved := false }
      else
        match r2.State with
        | none => { APIWrites := w1, FinalizerRemoved := false }
        | some svc =>
          let w2 : Nat :=
            if (newDeleteChangeService svc (getDesiredStateServicePorts o)).isSome then 1
            else 0
          { APIWrites := w1 + w2, FinalizerRemoved := true }

/-- C7. Deletion guard: for a deleted object whose cluster namespace
still lists at least one pod, both handlers cancel, mark the finalizer
kept and return nil state with nil error, and the delete reconcile
issues no API write and does not remove the finalizer. -/
theorem deletion_guard_cancels (o : CustomObject) (cm : ConfigMap) (svc : KubeService)
    (pods : String → List String)
    (hdel : IsDeleted o = true) (hpods : pods (ClusterNamespaceKey o) ≠ []) :
    getCurrentStateConfigMapV2 o cm pods =
      { State := none, Err := none, Canceled := true, FinalizerKept := true } ∧
    getCurrentStateServiceV2 o svc pods =
      { State := none, Err := none, Canceled := true, FinalizerKept := true } ∧
    reconcileOnDelete o cm svc pods = { APIWrites := 0, FinalizerRemoved := false } := by
  have hlen : (pods (ClusterNamespaceKey o)).length ≠ 0 := by
    intro hh
    exact hpods (List.length_eq_zero.mp hh)
  have h1 : getCurrentStateConfigMapV2 o cm pods =
      { State := none, Err := none, Canceled := true, FinalizerKept := true } := by
    unfold getCurrentStateConfigMapV2
    rw [if_pos hdel, if_pos hlen]
  have h2 : getCurrentStateServiceV2 o svc pods =
      { State := none, Err := none, Canceled := true, FinalizerKept := true } := by
    unfold getCurrentStateServiceV2
    rw [if_pos hdel, if_pos hlen]
  refine ⟨h1, h2, ?_⟩
  unfold reconcileOnDelete
  rw [h1]
  rfl

/-- Deleted variant of the al9qy object. -/
def objAl9qyDeleted : CustomObject :=
  { objAl9qy with DeletionTimestamp := some "2017-06-01T00:00:00Z" }

/-- A pod lister with one tenant pod in every namespace. -/
def podsOne : String → List String := fun _ => ["worker-pod-0"]

/-- Witness for C7 at the deleted al9qy object with one pod present. -/
theorem deletion_guard_cancels_witness :
    (IsDeleted objAl9qyDeleted = true ∧
      podsOne (ClusterNamespaceKey objAl9qyDeleted) ≠ []) ∧
    (getCurrentStateConfigMapV2 objAl9qyDeleted cmCurrentAl9qy podsOne =
      { State := none, Err := none, Canceled := true, FinalizerKept := true } ∧
    getCurrentStateServiceV2 objAl9qyDeleted svcAl9qy podsOne =
      { State := none, Err := none, Canceled := true, FinalizerKept := true } ∧
    reconcileOnDelete objAl9qyDeleted cmCurrentAl9qy svcAl9qy podsOne =
      { APIWrites := 0, FinalizerRemoved := false }) :=
  ⟨⟨by decide, by decide⟩,
    deletion_guard_cancels objAl9qyDeleted cmCurrentAl9qy svcAl9qy podsOne
      (by decide) (by decide)⟩

/-! ### Wrong-type handling (C8) -/

/-- The error kinds of the handlers (src/service/operator/error.go,
src/service/controller/v2/resource/service/error.go). -/
inductive GoErr where
  | WrongType
  | ServicePortNotFound
deriving DecidableEq, Repr

/-- A value delivered through the Go empty-interface obj parameter:
either a pointer to the custom object or a value of any other dynamic
type. -/
inductive GoObj where
  | IngressConfigPtr (o : CustomObject)
  | Other (typeName : String)
deriving DecidableEq, Repr

/-- `toCustomObject` (src/service/resource/service/resource.go lines
324-332): type-assert the delivered value; any other dynamic type
yields wrongTypeError. -/
def toCustomObject : GoObj → Except GoErr CustomObject
  | GoObj.IngressConfigPtr o => Except.ok o
  | GoObj.Other _ => Except.error GoErr.WrongType

/-- A value returned through an empty-interface result slot. -/
inductive GoValue where
  | NilValue
  | ErrValue (e : GoErr)
  | ServiceValue (s : KubeService)
  | PortsValue (ps : List ServicePort)
deriving DecidableEq, Repr

/-- `GetCurrentState` of the Service handler
(src/service/resource/service/resource.go lines 73-91) around its type
assertion: on a wrong-typed obj the code executes
`return microerror.Mask(err), nil` — the masked error is returned AS
THE STATE result and the error result is nil. The fetched Service
stands for a successful Kubernetes read on the well-typed path. -/
def serviceGetCurrentState (obj : GoObj) (fetched : KubeService) : GoValue × Option GoErr :=
  match toCustomObject obj with
  | Except.error e => (GoValue.ErrValue e, none)
  | Except.ok _ => (GoValue.ServiceValue fetched, none)

/-- `GetDesiredState` of the Service handler
(src/service/resource/service/resource.go lines 93-126): same
`return microerror.Mask(err), nil` pattern on the wrong-type path. -/
def serviceGetDesiredState (obj : GoObj) : GoValue × Option GoErr :=
  match toCustomObject obj with
  | Except.error e => (GoValue.ErrValue e, none)
  | Except.ok o => (GoValue.PortsValue (getDesiredStateServicePorts o), none)

/-- `ApplyCreateChange` of the Service handler
(src/service/resource/service/resource.go, apply section): here the
wrong-type error IS returned in the error result and no write happens.
The Bool is true iff the Services Update API call is issued. -/
def serviceApplyCreateChange (obj : GoObj) (change : Option KubeService) :
    Option GoErr × Bool :=
  match toCustomObject obj with
  | Except.error e => (some e, false)
  | Except.ok _ =>
    match change with
    | none => (none, false)
    | some _ => (none, true)

/-- C8: evaluation at a wrong-typed input. GetCurrentState and
GetDesiredState return a NIL error result and smuggle the wrong-type
error into the state slot, while the apply step returns it in the error
result; the claim that every operation returns a non-nil error is
contradicted by the code on its read and diff paths. -/
theorem wrong_type_error_slot_eval :
    serviceGetCurrentState (GoObj.Other "int") svcAl9qy =
      (GoValue.ErrValue GoErr.WrongType, none) ∧
    serviceGetDesiredState (GoObj.Other "int") = (GoValue.ErrValue GoErr.WrongType, none) ∧
    (serviceGetCurrentState (GoObj.Other "int") svcAl9qy).2 = none ∧
    (serviceGetDesiredState (GoObj.Other "int")).2 = none ∧
    serviceApplyCreateChange (GoObj.Other "int") none = (some GoErr.WrongType, false) := by
  refine ⟨rfl, rfl, rfl, rfl, rfl⟩

/-! ### The two ClusterNamespace encodings (C9) -/

/-- `ClusterID` (src/service/operator/key.go lines 7-9): the cluster ID
recorded in the custom object (the kvmtpr revision reads it from
Spec.Cluster.Cluster.ID; the guest cluster ID carries it here). -/
def ClusterIDOperator (o : CustomObject) : String := o.Spec.GuestCluster.ID

/-- `ClusterNamespace` (src/service/operator/key.go lines 11-13): this
revision returns the cluster ID. -/
def ClusterNamespaceOperator (o : CustomObject) : String := ClusterIDOperator o

/-- Object whose guest cluster ID and guest namespace differ. -/
def objNsDiffers : CustomObject :=
  { Spec :=
      { GuestCluster := { ID := "al9qy", Namespace := "tenant-ns", Service := "worker" }
        HostCluster :=
          { IngressController :=
              { ConfigMap := "ingress-controller"
                Namespace := "kube-system"
                Service := "ingress-controller" } }
        ProtocolPorts := [{ IngressPort := 30010, LBPort := 31000, Protocol := "http" }] }
    DeletionTimestamp := none }

/-- C9 counterexample: the operator-revision encoding (cluster ID) and
the key-package encoding (guest namespace) of ClusterNamespace
disagree on a concrete object whose ID and namespace differ, refuting
the claim that they resolve to the same value for every object. -/
theorem cluster_namespace_disagree :
    ClusterNamespaceOperator objNsDiffers ≠ ClusterNamespaceKey objNsDiffers := by
  decide

/-- C9 (amended): the two encodings of ClusterNamespace agree on an
object exactly when its guest cluster ID equals its guest namespace
(as in the seed objects, where ID = Namespace = al9qy); on any other
object they differ. -/
theorem cluster_namespace_agree_iff (o : CustomObject) :
    ClusterNamespaceOperator o = ClusterNamespaceKey o ↔
      ClusterIDOperator o = o.Spec.GuestCluster.Namespace :=
  Iff.rfl

/-! ### Aliasing of the current state by the diffs (C10) -/

/-- The heap cells holding ConfigMaps, addressed by abstract
locations: the model of Go pointers to ConfigMaps. -/
def ConfigMapHeap : Type := Nat → ConfigMap

/-- The heap cells holding Services. -/
def ServiceHeap : Type := Nat → KubeService

/-- `newCreateChange` of the ConfigMap handler as it acts on the heap
(src/service/resource/configmap/create.go lines 57-72):
`createState := currentConfigMap` copies the POINTER, the loop assigns
into the shared Data map, and the function returns that same
pointer. -/
def newCreateChangeConfigMapGo (h : ConfigMapHeap) (cur : Nat) (desired : GoStrMap) :
    ConfigMapHeap × Option Nat :=
  ((fun l => if l = cur then
      { h cur with Data := newCreateChangeConfigMapData (h cur).Data desired }
    else h l),
   some cur)

/-- `newUpdateChange` of the Service handler on the heap
(src/service/resource/service/update.go lines 67-95): the loop mutates
`currentService.Spec.Ports` through the current-state pointer (the
source carries a TODO to DeepCopy precisely because of this side
effect); the returned change is that same pointer when the count is
positive and nil otherwise — but the cell is mutated either way. -/
def newUpdateChangeServiceGo (h : ServiceHeap) (cur : Nat) (desired : List ServicePort) :
    ServiceHeap × Option Nat × Nat :=
  ((fun l => if l = cur then
      { h cur with Spec := { Ports := (goUpdatePorts (h cur).Spec.Ports desired).1 } }
    else h l),
   (if 0 < (goUpdatePorts (h cur).Spec.Ports desired).2 then some cur else none),
   (goUpdatePorts (h cur).Spec.Ports desired).2)

/-- `newDeleteChange` of the configmapv2 handler on the heap
(src/unnamed/part_020 lines 50-92): `deleteState := currentConfigMap`,
the filtered map is assigned to the shared Data field, the same pointer
is returned. -/
def newDeleteChangeConfigMapGo (h : ConfigMapHeap) (cur : Nat) (desired : GoStrMap) :
    ConfigMapHeap × Option Nat :=
  ((fun l => if l = cur then
      { h cur with Data := newDeleteChangeConfigMapData (h cur).Data desired }
    else h l),
   some cur)

/-- C10. The diff computations alias the current state: each returns
the very pointer it received as current state (never a fresh
location), the pointed-to cell afterwards holds the computed change —
so the caller's current-state value already contains the change once
the patch is computed — every other heap location is untouched, and
the Service update mutates the cell even when it returns a nil
change. -/
theorem diff_aliases_current_state (hcm : ConfigMapHeap) (hsv : ServiceHeap)
    (cur scur dcur : Nat) (desired ddesired : GoStrMap) (dports : List ServicePort) :
    ((newCreateChangeConfigMapGo hcm cur desired).2 = some cur ∧
      (newCreateChangeConfigMapGo hcm cur desired).1 =
        Function.update hcm cur
          { hcm cur with Data := newCreateChangeConfigMapData (hcm cur).Data desired }) ∧
    ((newUpdateChangeServiceGo hsv scur dports).1 =
        Function.update hsv scur
          { hsv scur with
              Spec := { Ports := (goUpdatePorts (hsv scur).Spec.Ports dports).1 } } ∧
      (newUpdateChangeServiceGo hsv scur dports).2.1 =
        (if 0 < (goUpdatePorts (hsv scur).Spec.Ports dports).2 then some scur else none)) ∧
    ((newDeleteChangeConfigMapGo hcm dcur ddesired).2 = some dcur ∧
      (newDeleteChangeConfigMapGo hcm dcur ddesired).1 =
        Function.update hcm dcur
          { hcm dcur with Data := newDeleteChangeConfigMapData (hcm dcur).Data ddesired }) := by
  refine ⟨⟨rfl, ?_⟩, ⟨?_, rfl⟩, ⟨rfl, ?_⟩⟩
  · funext l
    rw [Function.update_apply]
    rfl
  · funext l
    rw [Function.update_apply]
    rfl
  · funext l
    rw [Function.update_apply]
    rfl
